import Mathlib

/-!
Verification of the `flen2pq` fixed-width-to-Parquet converter
(`src/flen2pq/flen2pq.py`) against its natural-language specification.

The embedding translates the Python source into Lean:

* `TypeHandlers.int_type_handler` and `TypeHandlers.monetary_type_handler`
  become `int_type_handler` / `monetary_type_handler`, built on models of the
  Python builtins `int()` and `float()` (decimal literals; `int()` including
  Python's single-underscore digit grouping; `float()` restricted to plain
  decimal literals, which is all the converter ever constructs or that any
  claim exercises — no exponents, `inf`/`nan`, or underscores).
* `pd.read_fwf(widths=..., names=..., dtype=str, keep_default_na=False)`
  becomes `readChunks`: each line is sliced by cumulative column widths and,
  exactly as pandas' `FixedWidthReader` does, each slice is stripped of the
  default filler characters `"\n\r\t "` on both sides; rows whose fields all
  strip to empty are dropped (`skip_blank_lines`, via
  `FixedWidthFieldParser._remove_empty_lines`); the remaining data rows are
  grouped into chunks of `chunk_size`.
* `FixedWidthToParquetConverter.convert` becomes `convertLoop`/`finalizeRun`:
  the loop walks a list of `ChunkEvent`s (a successfully read chunk, a
  `pandas.errors.ParserError` raised by the reader iteration, or any other
  exception), threading the lazily-created writer (`Option OutFile`) exactly
  as the source threads `first_chunk`/`pq_writer`, with the source's
  `except ParserError` / `except Exception` handlers and the finalization
  block (close writer, `os.remove` + message + `sys.exit(1)` on error).
  `os.remove` on a path that was never created raises `FileNotFoundError`,
  which the source does not catch; this is modelled by
  `Outcome.crashed PyError.fileNotFound`.
* `convertFile` instantiates the loop on the events produced by reading an
  actual (in-memory) input file, i.e. a run with no reader-raised errors.

Python exceptions are represented by `PyError`; the converter only ever
branches on whether an exception is a `ParserError`, so messages are dropped.
-/

/-! ## Character predicates and numeric parsing (models of `int()`/`float()`) -/

/-- Decimal digit test (codes 48–57), matching Python's `str.isdigit` on ASCII. -/
def isDig (c : Char) : Bool := decide (48 ≤ c.toNat ∧ c.toNat ≤ 57)

/-- Whitespace stripped by Python's `str.strip()` / numeric parsing:
space, tab, LF, VT, FF, CR. -/
def isPyWsB (c : Char) : Bool :=
  c.toNat == 32 || c.toNat == 9 || c.toNat == 10 ||
  c.toNat == 11 || c.toNat == 12 || c.toNat == 13

/-- Filler characters pandas' `FixedWidthReader` strips from every field
slice (its default `delimiter`, `"\n\r\t "`). -/
def isPdDelimB (c : Char) : Bool :=
  c.toNat == 32 || c.toNat == 9 || c.toNat == 10 || c.toNat == 13

def plusChar : Char := '+'
def minusChar : Char := '-'
def dotChar : Char := '.'
def uChar : Char := '_'

/-- Value of a digit string, most significant first (plain base 10). -/
def digitsToNat (l : List Char) : Nat :=
  l.foldl (fun a c => 10 * a + (c.toNat - 48)) 0

/-- Strip characters satisfying `p` from both ends of a character list. -/
def stripBoth (p : Char → Bool) (l : List Char) : List Char :=
  ((l.dropWhile p).reverse.dropWhile p).reverse

/-- Python's `str.strip()` on a character list. -/
def pyStrip (l : List Char) : List Char := stripBoth isPyWsB l

/-- After an initial digit, Python's `int()` accepts further digits with
single underscores allowed only between digits. -/
def digitsUAux : List Char → Bool
  | [] => true
  | c :: rest =>
    if isDig c then digitsUAux rest
    else if c = uChar then
      match rest with
      | [] => false
      | d :: _ => isDig d && digitsUAux rest
    else false

/-- A nonempty digit run with Python's underscore grouping rules. -/
def validDigitsU : List Char → Bool
  | [] => false
  | c :: rest => isDig c && digitsUAux rest

/-- Model of the builtin `int()` on an already-stripped character list:
optional sign followed by an underscore-grouped digit run. -/
def pyIntCore (l : List Char) : Option Int :=
  match l with
  | [] => none
  | c :: rest =>
    if c = plusChar then
      if validDigitsU rest then some ((digitsToNat (rest.filter isDig) : Int)) else none
    else if c = minusChar then
      if validDigitsU rest then some (-(digitsToNat (rest.filter isDig) : Int)) else none
    else if validDigitsU l then some ((digitsToNat (l.filter isDig) : Int)) else none

/-- `TypeHandlers.int_type_handler`: `int(str_int.strip())`; `none` models the
`ValueError` that `int()` raises on malformed input. -/
def int_type_handler (s : String) : Option Int := pyIntCore (pyStrip s.toList)

/-- Unsigned decimal literal `digits [. digits]` / `. digits` (at least one
digit overall), as accepted by `float()`. -/
def parseUnsignedDec (l : List Char) : Option ℚ :=
  let ds := l.takeWhile isDig
  match l.dropWhile isDig with
  | [] => if ds.isEmpty then none else some ((digitsToNat ds : ℚ))
  | c :: fs =>
    if c == dotChar && fs.all isDig && (!ds.isEmpty || !fs.isEmpty) then
      some ((digitsToNat ds : ℚ) + (digitsToNat fs : ℚ) / 10 ^ fs.length)
    else none

/-- Model of the builtin `float()` (restricted to plain decimal literals):
strip, optional sign, unsigned decimal literal.  Values are exact rationals;
both sides of every claim about `float()` results round identically, so the
rational value is the faithful comparison point. -/
def pyFloatOfString (s : String) : Option ℚ :=
  match pyStrip s.toList with
  | [] => none
  | c :: rest =>
    if c = plusChar then parseUnsignedDec rest
    else if c = minusChar then (parseUnsignedDec rest).map Neg.neg
    else parseUnsignedDec (c :: rest)

/-- Model of `pd.to_numeric(x, errors=coerce)` on a single string: a numeric
parse where failure yields NaN, represented as `none` (restricted to plain
decimal literals like `pyFloatOfString`). -/
def pdToNumericCoerce (s : String) : Option ℚ := pyFloatOfString s

/-- `TypeHandlers.monetary_type_handler`:
`float(str_amount[:-2] + "." + str_amount[-2:])`.  `List.take (n-2)` /
`List.drop (n-2)` reproduce Python's negative-index slicing including the
short-string cases. -/
def monetary_type_handler (s : String) : Option ℚ :=
  let cs := s.toList
  pyFloatOfString (String.mk (cs.take (cs.length - 2) ++ dotChar :: cs.drop (cs.length - 2)))

/-- `pd.to_numeric(col, errors=coerce).astype(bool)` on one value: numeric
parse, NaN on failure; `astype(bool)` maps a float to `x != 0`, and NaN — being
nonzero — maps to `true`. -/
def boolCoerce (s : String) : Bool :=
  match pdToNumericCoerce s with
  | some q => decide (q ≠ 0)
  | none => true

/-! ## Schema, cell values, and per-field coercion (`convert`, lines 55–70) -/

/-- One entry of the `fields` schema list: `{name, length, type, format?}`.
The `type` tag is kept as a plain string because the source dispatches on
string equality and silently passes unknown tags through. -/
structure FieldDef where
  name : String
  length : Nat
  type : String
  format : Option String
deriving DecidableEq, Repr

/-- A coerced cell value.  `float none` is NaN.  Datetime values themselves are
never observed by any claim (parsing uses `errors=coerce`, which cannot raise),
so a coerced date cell records the format and raw text it was parsed from. -/
inductive PyValue where
  | str (s : String)
  | int (n : Int)
  | float (q : Option ℚ)
  | bool (b : Bool)
  | date (fmt raw : String)
deriving DecidableEq, Repr

/-- The exception distinctions `convert` branches on: `pandas.errors.ParserError`
versus any other exception (`ValueError` from coercion, `FileNotFoundError`
from `os.remove`). -/
inductive PyError where
  | valueError
  | parserError
  | fileNotFound
deriving DecidableEq, Repr

/-- The per-column dispatch of `convert` (lines 58–70) applied to one cell:
the `if col_type == ...` chain, with the date-format schema check and the
fall-through (no branch) for `string`/unknown tags. -/
def coerceField (f : FieldDef) (s : String) : Except PyError PyValue :=
  if f.type = "int" then
    match int_type_handler s with
    | some n => .ok (.int n)
    | none => .error .valueError
  else if f.type = "float" then .ok (.float (pdToNumericCoerce s))
  else if f.type = "bool" then .ok (.bool (boolCoerce s))
  else if f.type = "date" then
    match f.format with
    | none => .error .valueError
    | some fmt => .ok (.date fmt s)
  else if f.type = "fixed_monetary" then
    match monetary_type_handler s with
    | some q => .ok (.float (some q))
    | none => .error .valueError
  else .ok (.str s)

/-- Coerce one row, field by field in schema order.  The source coerces
column-by-column (`chunk[col].apply`); since each field touches only its own
column and every coercion error is a `ValueError`, processing row-major is
observationally identical for everything the pipeline inspects. -/
def coerceRow : List FieldDef → List String → Except PyError (List PyValue)
  | [], _ => .ok []
  | f :: fs, r =>
    match coerceField f (r.headD "") with
    | .error e => .error e
    | .ok v =>
      match coerceRow fs r.tail with
      | .error e => .error e
      | .ok vs => .ok (v :: vs)

/-- `mapM` over `Except`, written out structurally. -/
def mapME (f : α → Except ε β) : List α → Except ε (List β)
  | [] => .ok []
  | x :: xs =>
    match f x with
    | .error e => .error e
    | .ok y =>
      match mapME f xs with
      | .error e => .error e
      | .ok ys => .ok (y :: ys)

/-- Coerce every row of a chunk. -/
def coerceChunk (fields : List FieldDef) (rows : List (List String)) :
    Except PyError (List (List PyValue)) :=
  mapME (coerceRow fields) rows

/-! ## The chunk reader (`pd.read_fwf`, lines 45–47) -/

/-- Strip pandas' default fixed-width filler characters from a field slice. -/
def pdFieldStrip (l : List Char) : List Char := stripBoth isPdDelimB l

/-- Slice one line by successive column widths, stripping each slice exactly
as pandas' `FixedWidthReader` does (`line[from:to].strip(delimiter)`). -/
def sliceRow : List Nat → List Char → List String
  | [], _ => []
  | w :: ws, cs => String.mk (pdFieldStrip (cs.take w)) :: sliceRow ws (cs.drop w)

/-- The raw, unstripped slices of a line by successive column widths — the
spec's notion of "the raw fixed-width slice", stated for comparison with what
the reader actually produces. -/
def rawSliceRow : List Nat → List Char → List String
  | [], _ => []
  | w :: ws, cs => String.mk (cs.take w) :: rawSliceRow ws (cs.drop w)

/-- Group a list into consecutive chunks of at most `n` elements, via explicit
fuel so the definition is structural (the fuel is instantiated with the list
length, which always suffices). -/
def chunksOfF : Nat → Nat → List α → List (List α)
  | _, _, [] => []
  | 0, _, l => [l]
  | fuel + 1, n, x :: xs => (x :: xs.take (n - 1)) :: chunksOfF fuel n (xs.drop (n - 1))

def chunksOf (n : Nat) (l : List α) : List (List α) := chunksOfF l.length n l

/-- A sliced row that pandas' blank-line filter drops:
`FixedWidthFieldParser._remove_empty_lines` keeps a row iff some field still
has content after `str.strip()`; with fixed-width fields a blank or
whitespace-only line becomes an array of empty strings and is removed. -/
def isBlankRow (r : List String) : Bool :=
  r.all (fun s => (pyStrip s.toList).isEmpty)

/-- The data rows the reader actually yields: every line sliced by the column
widths, with the rows that are blank after slicing removed
(`skip_blank_lines=True`, the `read_fwf` default). -/
def rowsOf (widths : List Nat) (lines : List String) : List (List String) :=
  (lines.map (fun ln => sliceRow widths ln.toList)).filter (fun r => !(isBlankRow r))

/-- The reader: slice every input line by the column widths, drop blank rows,
and group the remaining data rows into chunks of `chunk_size`.  An empty file
yields no chunks. -/
def readChunks (widths : List Nat) (chunkSize : Nat) (lines : List String) :
    List (List (List String)) :=
  chunksOf chunkSize (rowsOf widths lines)

/-! ## The conversion loop (`convert`, lines 34–97) -/

/-- One step of the `for chunk in file` iteration: a successfully read chunk,
a `pandas.errors.ParserError` raised by the reader, or any other exception
raised while reading, coercing (beyond what `coerceChunk` models), converting
to Arrow, or writing. -/
inductive ChunkEvent where
  | ok (rows : List (List String))
  | parserErr
  | genErr
deriving DecidableEq, Repr

/-- The state of the lazily-created Parquet writer: the schema captured from
the first chunk and all rows written so far.  `pyarrow.parquet.ParquetWriter`
creates the output file the moment it is constructed. -/
structure OutFile where
  cols : List String
  rows : List (List PyValue)
deriving DecidableEq, Repr

/-- How control leaves the `try`/`except` region: normal completion, the
generic error flag set (`in_error = True`), or an exception re-raised out of
`convert`. -/
inductive LoopExit where
  | normal
  | inError
  | reraise
deriving DecidableEq, Repr

/-- The observable result of a run.  `done w` — success message printed,
process exits 0, output file present iff `w = some`; `aborted` — output file
deleted, error message printed, `sys.exit(1)`; `crashed e leftover` — the
uncaught exception `e` escapes `convert` (terminating the process with a
traceback when run as a script), with `leftover` the output file, if any,
left on disk un-finalized. -/
inductive Outcome where
  | done (w : Option OutFile)
  | aborted
  | crashed (e : PyError) (leftover : Option OutFile)
deriving DecidableEq, Repr

/-- Lines 48–87 of the source: the chunk loop with its two exception handlers.
A `ParserError` is printed and, when `fault_tolerant is False`, re-raised:
either way the loop is over.  Any other exception sets `in_error`.  A chunk
that is empty (no rows, or no columns because the schema is empty — pandas'
`DataFrame.empty` is true when any axis has length 0) breaks the loop. -/
def convertLoop (fields : List FieldDef) (ft : Bool) :
    List ChunkEvent → Option OutFile → Option OutFile × LoopExit
  | [], w => (w, .normal)
  | .parserErr :: _, w => (w, if ft then .normal else .reraise)
  | .genErr :: _, w => (w, .inError)
  | .ok rows :: rest, w =>
    if rows.isEmpty || fields.isEmpty then (w, .normal)
    else
      match coerceChunk fields rows with
      | .error _ => (w, .inError)
      | .ok typed =>
        match w with
        | none => convertLoop fields ft rest (some { cols := fields.map FieldDef.name, rows := typed })
        | some wr => convertLoop fields ft rest (some { wr with rows := wr.rows ++ typed })

/-- Lines 89–97 of the source.  On re-raise the finalization block never runs
(the writer is not closed, nothing is deleted).  Otherwise the writer, if
open, is closed; then with `in_error` set the source calls
`os.remove(self.output_file)` — which succeeds and is followed by the error
message and `sys.exit(1)` when the file was created, but raises an uncaught
`FileNotFoundError` when no chunk was ever written and the file does not
exist. -/
def finalizeRun : Option OutFile × LoopExit → Outcome
  | (w, .reraise) => .crashed .parserError w
  | (none, .inError) => .crashed .fileNotFound none
  | (some _, .inError) => .aborted
  | (w, .normal) => .done w

/-- A full run of `convert` over a given sequence of read events. -/
def convertRun (fields : List FieldDef) (ft : Bool) (events : List ChunkEvent) : Outcome :=
  finalizeRun (convertLoop fields ft events none)

/-- A full run of `convert` on an in-memory input file (a list of lines):
the reader produces every chunk successfully. -/
def convertFile (fields : List FieldDef) (chunkSize : Nat) (ft : Bool)
    (lines : List String) : Outcome :=
  convertRun fields ft ((readChunks (fields.map FieldDef.length) chunkSize lines).map ChunkEvent.ok)

/-- `FixedWidthToParquetConverter.__init__` (lines 27–32), with the source's
default arguments. -/
structure FixedWidthToParquetConverter where
  input_file : String
  output_file : String
  fields : List FieldDef
  chunk_size : Nat := 10000
  fault_tolerant : Bool := true
deriving DecidableEq, Repr

/-- Construction without explicit `chunk_size` / `fault_tolerant` arguments:
the defaults apply. -/
def mkConverter (i o : String) (fs : List FieldDef) : FixedWidthToParquetConverter :=
  { input_file := i, output_file := o, fields := fs }

/-- `FixedWidthToParquetConverter.convert`, reading the given lines from the
input file. -/
def FixedWidthToParquetConverter.convert (c : FixedWidthToParquetConverter)
    (lines : List String) : Outcome :=
  convertFile c.fields c.chunk_size c.fault_tolerant lines

deriving instance DecidableEq for Except

/-! ## Helper lemmas: stripping and digit strings -/

theorem dropWhile_all_app (p : Char → Bool) (a l : List Char)
    (h : ∀ c ∈ a, p c = true) : (a ++ l).dropWhile p = l.dropWhile p := by
  induction a with
  | nil => rfl
  | cons x t ih =>
    have hx : p x = true := h x (List.mem_cons_self x t)
    simp only [List.cons_append, List.dropWhile_cons, hx, if_true]
    exact ih (fun c hc => h c (List.mem_cons_of_mem x hc))

theorem dropWhile_neg_head (p : Char → Bool) (x : Char) (l : List Char)
    (h : p x = false) : (x :: l).dropWhile p = x :: l := by
  simp [List.dropWhile_cons, h]

theorem dropWhile_all_neg (p : Char → Bool) (l : List Char)
    (h : ∀ c ∈ l, p c = false) : l.dropWhile p = l := by
  cases l with
  | nil => rfl
  | cons x t => exact dropWhile_neg_head p x t (h x (List.mem_cons_self x t))

theorem stripBoth_sandwich (p : Char → Bool) (a s b : List Char)
    (ha : ∀ c ∈ a, p c = true) (hb : ∀ c ∈ b, p c = true)
    (hs : s ≠ []) (hsn : ∀ c ∈ s, p c = false) :
    stripBoth p (a ++ s ++ b) = s := by
  unfold stripBoth
  rw [List.append_assoc, dropWhile_all_app p a (s ++ b) ha]
  obtain ⟨c, t, rfl⟩ := List.exists_cons_of_ne_nil hs
  rw [show ((c :: t) ++ b).dropWhile p = (c :: t) ++ b from by
    simpa using dropWhile_neg_head p c (t ++ b) (hsn c (List.mem_cons_self c t))]
  rw [List.reverse_append]
  obtain ⟨d, u, hdu⟩ := List.exists_cons_of_ne_nil
    (show (c :: t).reverse ≠ [] by simp)
  rw [dropWhile_all_app p b.reverse _ (fun x hx => hb x (List.mem_reverse.mp hx))]
  rw [hdu, dropWhile_neg_head p d u (hsn d (by
    have : d ∈ (c :: t).reverse := by rw [hdu]; exact List.mem_cons_self d u
    exact List.mem_reverse.mp this))]
  rw [← hdu, List.reverse_reverse]

theorem stripBoth_all_neg (p : Char → Bool) (l : List Char)
    (h : ∀ c ∈ l, p c = false) : stripBoth p l = l := by
  unfold stripBoth
  rw [dropWhile_all_neg p l h,
    dropWhile_all_neg p l.reverse (fun c hc => h c (List.mem_reverse.mp hc)),
    List.reverse_reverse]

theorem takeWhile_all_append (p : Char → Bool) (a : List Char) (c : Char) (b : List Char)
    (ha : ∀ x ∈ a, p x = true) (hc : p c = false) :
    (a ++ c :: b).takeWhile p = a := by
  induction a with
  | nil => simp [List.takeWhile_cons, hc]
  | cons x t ih =>
    have hx : p x = true := ha x (List.mem_cons_self x t)
    simp only [List.cons_append, List.takeWhile_cons, hx, if_true]
    rw [ih (fun y hy => ha y (List.mem_cons_of_mem x hy))]

theorem dropWhile_append_neg (p : Char → Bool) (a : List Char) (c : Char) (b : List Char)
    (ha : ∀ x ∈ a, p x = true) (hc : p c = false) :
    (a ++ c :: b).dropWhile p = c :: b := by
  rw [dropWhile_all_app p a (c :: b) ha, dropWhile_neg_head p c b hc]

theorem isDig_not_pyWs (c : Char) (h : isDig c = true) : isPyWsB c = false := by
  simp only [isDig, decide_eq_true_eq] at h
  simp only [isPyWsB, Bool.or_eq_false_iff, beq_eq_false_iff_ne, ne_eq]
  omega

theorem isDig_not_pdDelim (c : Char) (h : isDig c = true) : isPdDelimB c = false := by
  simp only [isDig, decide_eq_true_eq] at h
  simp only [isPdDelimB, Bool.or_eq_false_iff, beq_eq_false_iff_ne, ne_eq]
  omega

theorem isDig_ne_signs (c : Char) (h : isDig c = true) :
    c ≠ plusChar ∧ c ≠ minusChar ∧ c ≠ uChar ∧ c ≠ dotChar := by
  refine ⟨?_, ?_, ?_, ?_⟩ <;> rintro rfl <;> exact absurd h (by decide)

theorem digits_foldl_general (l : List Char) :
    ∀ init : Nat, l.foldl (fun a c => 10 * a + (c.toNat - 48)) init
      = init * 10 ^ l.length + digitsToNat l := by
  induction l with
  | nil => intro init; simp [digitsToNat]
  | cons c t ih =>
    intro init
    have h1 : (c :: t).foldl (fun a c => 10 * a + (c.toNat - 48)) init
        = t.foldl (fun a c => 10 * a + (c.toNat - 48)) (10 * init + (c.toNat - 48)) := rfl
    have h2 : digitsToNat (c :: t)
        = t.foldl (fun a c => 10 * a + (c.toNat - 48)) (c.toNat - 48) := by
      simp [digitsToNat]
    rw [h1, ih, h2, ih]
    simp only [List.length_cons, pow_succ]
    ring

theorem digitsToNat_append (a b : List Char) :
    digitsToNat (a ++ b) = digitsToNat a * 10 ^ b.length + digitsToNat b := by
  unfold digitsToNat
  rw [List.foldl_append]
  exact digits_foldl_general b _

theorem digitsUAux_all (l : List Char) (h : ∀ c ∈ l, isDig c = true) :
    digitsUAux l = true := by
  induction l with
  | nil => rfl
  | cons c t ih =>
    have hc : isDig c = true := h c (List.mem_cons_self c t)
    simp only [digitsUAux, hc, if_true]
    exact ih (fun x hx => h x (List.mem_cons_of_mem c hx))

theorem validDigitsU_all (c : Char) (t : List Char)
    (h : ∀ x ∈ c :: t, isDig x = true) : validDigitsU (c :: t) = true := by
  simp only [validDigitsU, h c (List.mem_cons_self c t), Bool.true_and]
  exact digitsUAux_all t (fun x hx => h x (List.mem_cons_of_mem c hx))

theorem digitsUAux_cons (c : Char) (t : List Char) :
    digitsUAux (c :: t)
      = if isDig c then digitsUAux t
        else if c = uChar then
          (match t with
            | [] => false
            | d :: _ => isDig d && digitsUAux t)
        else false := rfl

theorem digitsUAux_bad (l : List Char) (c : Char) (hc : c ∈ l)
    (h1 : isDig c = false) (h2 : c ≠ uChar) : digitsUAux l = false := by
  induction l with
  | nil => cases hc
  | cons x t ih =>
    by_cases hx : isDig x = true
    · have hne : c ≠ x := fun he => by rw [he] at h1; rw [h1] at hx; cases hx
      have hct : c ∈ t := (List.mem_cons.mp hc).resolve_left hne
      rw [digitsUAux_cons, hx]
      simpa using ih hct
    · have hxf : isDig x = false := Bool.eq_false_iff.mpr hx
      by_cases hu : x = uChar
      · subst hu
        have hct : c ∈ t := (List.mem_cons.mp hc).resolve_left h2
        obtain ⟨d, u, rfl⟩ := List.exists_cons_of_ne_nil (List.ne_nil_of_mem hct)
        rw [digitsUAux_cons, hxf]
        simp [ih hct]
      · rw [digitsUAux_cons, hxf]
        simp [hu]

theorem validDigitsU_bad (l : List Char) (c : Char) (hc : c ∈ l)
    (h1 : isDig c = false) (h2 : c ≠ uChar) : validDigitsU l = false := by
  cases l with
  | nil => rfl
  | cons x t =>
    rcases List.mem_cons.mp hc with he | hct
    · subst he
      simp [validDigitsU, h1]
    · simp only [validDigitsU]
      rw [digitsUAux_bad t c hct h1 h2, Bool.and_false]

/-- Claim C5: for every `int` field value that is a digit string optionally
surrounded by whitespace, the coerced value is the integer obtained by
trimming and parsing; content containing a character that cannot occur in a
numeric literal is a hard per-value failure (`none`, i.e. a raised
`ValueError`), never a silent missing value. -/
theorem c5_int_coercion :
    (∀ a s b : List Char, (∀ c ∈ a, isPyWsB c = true) → (∀ c ∈ b, isPyWsB c = true) →
      s ≠ [] → (∀ c ∈ s, isDig c = true) →
      int_type_handler (String.mk (a ++ s ++ b)) = some ((digitsToNat s : Int))) ∧
    (∀ t : String, ∀ c ∈ pyStrip t.toList, isDig c = false → c ≠ plusChar →
      c ≠ minusChar → c ≠ uChar → int_type_handler t = none) := by
  constructor
  · intro a s b ha hb hs hd
    unfold int_type_handler
    rw [show (String.mk (a ++ s ++ b)).toList = a ++ s ++ b from rfl]
    rw [show pyStrip (a ++ s ++ b) = s from
      stripBoth_sandwich isPyWsB a s b ha hb hs
        (fun c hc => isDig_not_pyWs c (hd c hc))]
    obtain ⟨c, t, rfl⟩ := List.exists_cons_of_ne_nil hs
    obtain ⟨hp, hm, _, _⟩ := isDig_ne_signs c (hd c (List.mem_cons_self c t))
    have hv : validDigitsU (c :: t) = true := validDigitsU_all c t hd
    have hf : (c :: t).filter isDig = c :: t :=
      List.filter_eq_self.mpr (fun x hx => hd x hx)
    simp only [pyIntCore, if_neg hp, if_neg hm, hv, if_true, hf]
  · intro t c hc h1 h2 h3 h4
    unfold int_type_handler
    cases hl : pyStrip t.toList with
    | nil => rfl
    | cons x r =>
      rw [hl] at hc
      simp only [pyIntCore]
      by_cases hxp : x = plusChar
      · have hcr : c ∈ r := (List.mem_cons.mp hc).resolve_left (fun he => h2 (he ▸ hxp))
        rw [if_pos hxp, validDigitsU_bad r c hcr h1 h4]
        simp
      · by_cases hxm : x = minusChar
        · have hcr : c ∈ r := (List.mem_cons.mp hc).resolve_left (fun he => h3 (he ▸ hxm))
          rw [if_neg hxp, if_pos hxm, validDigitsU_bad r c hcr h1 h4]
          simp
        · rw [if_neg hxp, if_neg hxm, validDigitsU_bad (x :: r) c hc h1 h4]
          simp

/-- Witness for C5: `" 123 "` parses to `123`; the spec's example `"abcxyz"`
hard-fails. -/
theorem c5_int_coercion_witness :
    int_type_handler (String.mk (Char.ofNat 32 :: '1' :: '2' :: '3' :: [Char.ofNat 32]))
      = some 123 ∧
    int_type_handler "abcxyz" = none := by
  constructor
  · exact (c5_int_coercion.1 [Char.ofNat 32] ['1', '2', '3'] [Char.ofNat 32]
      (by decide) (by decide) (by decide) (by decide)).trans (by decide)
  · exact c5_int_coercion.2 "abcxyz" 'a' (by decide) (by decide) (by decide)
      (by decide) (by decide)

/-! ## Claim C6: `fixed_monetary` coercion -/

theorem parseUnsignedDec_digits (ds fs : List Char)
    (hds : ∀ c ∈ ds, isDig c = true) (hfs : ∀ c ∈ fs, isDig c = true) (hne : fs ≠ []) :
    parseUnsignedDec (ds ++ dotChar :: fs)
      = some ((digitsToNat ds : ℚ) + (digitsToNat fs : ℚ) / 10 ^ fs.length) := by
  have h1 : (ds ++ dotChar :: fs).takeWhile isDig = ds :=
    takeWhile_all_append isDig ds dotChar fs hds (by decide)
  have h2 : (ds ++ dotChar :: fs).dropWhile isDig = dotChar :: fs :=
    dropWhile_append_neg isDig ds dotChar fs hds (by decide)
  obtain ⟨f0, ft, rfl⟩ := List.exists_cons_of_ne_nil hne
  simp only [parseUnsignedDec, h1, h2]
  rw [if_pos]
  simp only [Bool.and_eq_true, beq_self_eq_true, Bool.or_eq_true, Bool.not_eq_true,
    List.all_eq_true, true_and]
  constructor
  · exact fun x hx => hfs x hx
  · right
    rfl

theorem pyFloat_digits_core (ip fp : List Char)
    (hip : ∀ c ∈ ip, isDig c = true) (hfp : ∀ c ∈ fp, isDig c = true) (hne : fp ≠ []) :
    pyFloatOfString (String.mk (ip ++ dotChar :: fp))
      = some ((digitsToNat ip : ℚ) + (digitsToNat fp : ℚ) / 10 ^ fp.length) := by
  have hstrip : pyStrip (ip ++ dotChar :: fp) = ip ++ dotChar :: fp := by
    apply stripBoth_all_neg
    intro c hc
    rcases List.mem_append.mp hc with h | h
    · exact isDig_not_pyWs c (hip c h)
    · rcases List.mem_cons.mp h with rfl | h
      · decide
      · exact isDig_not_pyWs c (hfp c h)
  simp only [pyFloatOfString]
  rw [show (String.mk (ip ++ dotChar :: fp)).toList = ip ++ dotChar :: fp from rfl, hstrip]
  cases ip with
  | nil =>
    simp only [List.nil_append]
    rw [if_neg (by decide : ¬ dotChar = plusChar), if_neg (by decide : ¬ dotChar = minusChar)]
    simpa using parseUnsignedDec_digits [] fp (by intro c hc; cases hc) hfp hne
  | cons d dt =>
    obtain ⟨hp, hm, _, _⟩ := isDig_ne_signs d (hip d (List.mem_cons_self d dt))
    change (if d = plusChar then parseUnsignedDec (dt ++ dotChar :: fp)
      else if d = minusChar then Option.map Neg.neg (parseUnsignedDec (dt ++ dotChar :: fp))
      else parseUnsignedDec (d :: (dt ++ dotChar :: fp))) = _
    rw [if_neg hp, if_neg hm]
    rw [show d :: (dt ++ dotChar :: fp) = (d :: dt) ++ dotChar :: fp from rfl]
    exact parseUnsignedDec_digits (d :: dt) fp hip hfp hne

/-- Claim C6: for an all-digit `fixed_monetary` raw value of width at least 2,
the coerced value is the decimal number whose cents part is the last two
characters and whose integer part is the rest, i.e. the raw digit value
divided by 100. -/
theorem c6_monetary_coercion (s : String) (h2 : 2 ≤ s.toList.length)
    (hd : ∀ c ∈ s.toList, isDig c = true) :
    monetary_type_handler s = some ((digitsToNat s.toList : ℚ) / 100) := by
  have hlen : (s.toList.drop (s.toList.length - 2)).length = 2 := by
    rw [List.length_drop]
    omega
  have hne : s.toList.drop (s.toList.length - 2) ≠ [] := by
    intro h
    rw [h] at hlen
    cases hlen
  have hkey : monetary_type_handler s
      = pyFloatOfString (String.mk (s.toList.take (s.toList.length - 2)
          ++ dotChar :: s.toList.drop (s.toList.length - 2))) := rfl
  rw [hkey, pyFloat_digits_core _ _
    (fun c hc => hd c (List.take_subset _ _ hc))
    (fun c hc => hd c (List.drop_subset _ _ hc)) hne, hlen]
  have hsplit : digitsToNat s.toList
      = digitsToNat (s.toList.take (s.toList.length - 2)) * 10 ^ 2
        + digitsToNat (s.toList.drop (s.toList.length - 2)) := by
    conv_lhs => rw [← List.take_append_drop (s.toList.length - 2) s.toList]
    rw [digitsToNat_append, hlen]
  rw [hsplit]
  push_cast
  field_simp
  ring

/-- Witness for C6: the spec's examples — width-6 `"123450"` coerces to
`1234.50` and `"678900"` to `6789.00`. -/
theorem c6_monetary_coercion_witness :
    monetary_type_handler "123450" = some ((123450 : ℚ) / 100) ∧
    monetary_type_handler "678900" = some ((678900 : ℚ) / 100) := by
  constructor
  · have h := c6_monetary_coercion "123450" (by decide) (by decide)
    rw [show digitsToNat "123450".toList = 123450 from by decide] at h
    simpa using h
  · have h := c6_monetary_coercion "678900" (by decide) (by decide)
    rw [show digitsToNat "678900".toList = 678900 from by decide] at h
    simpa using h

/-! ## Claim C7: `bool` coercion -/

/-- Counterexample for C7 as stated: the claim says a malformed (non-numeric)
`bool` value is mapped to *false*; on the code, `to_numeric(errors=coerce)`
yields NaN and `astype(bool)` maps NaN — which is nonzero, hence truthy — to
*true*. -/
theorem c7_malformed_bool_is_true :
    pdToNumericCoerce "abcxyz" = none ∧
    boolCoerce "abcxyz" = true ∧
    coerceField ⟨"flag", 6, "bool", none⟩ "abcxyz" = .ok (.bool true) := by
  exact ⟨rfl, rfl, rfl⟩

/-- Claim C7 as amended: a `bool` field is numerically parsed and maps to
`true` iff the parsed value is nonzero; a malformed (non-numeric) value
coerces to the missing marker NaN, which is mapped to *true* (not false);
`bool` coercion never raises an error. -/
theorem c7_bool_coercion (f : FieldDef) (s : String) (hf : f.type = "bool") :
    coerceField f s = .ok (.bool (boolCoerce s)) ∧
    (∀ q, pdToNumericCoerce s = some q → boolCoerce s = decide (q ≠ 0)) ∧
    (pdToNumericCoerce s = none → boolCoerce s = true) := by
  refine ⟨?_, ?_, ?_⟩
  · unfold coerceField
    rw [hf, if_neg (by decide), if_neg (by decide), if_pos rfl]
  · intro q hq
    simp [boolCoerce, hq]
  · intro hq
    simp [boolCoerce, hq]

/-- Witness for C7 (amended): `"00"` maps to false, `"2"` to true, and the
malformed `"xy"` to true, all without an error. -/
theorem c7_bool_coercion_witness :
    coerceField ⟨"flag", 2, "bool", none⟩ "00" = .ok (.bool false) ∧
    coerceField ⟨"flag", 2, "bool", none⟩ "2" = .ok (.bool true) ∧
    coerceField ⟨"flag", 2, "bool", none⟩ "xy" = .ok (.bool true) :=
  ⟨((c7_bool_coercion _ "00" rfl).1).trans (by decide),
   ((c7_bool_coercion _ "2" rfl).1).trans (by decide),
   ((c7_bool_coercion _ "xy" rfl).1).trans (by decide)⟩

/-! ## Claim C9: `string` pass-through -/

/-- Counterexample for C9 as stated: the reader strips surrounding whitespace
from every fixed-width slice, so a `string` field's output value is *not* the
raw slice unchanged — for the line `"ab    "` with one width-6 string column,
the raw slice is `"ab    "` but the value written is `"ab"`. -/
theorem c9_reader_trims_whitespace :
    rawSliceRow [6] "ab    ".toList = ["ab    "] ∧
    sliceRow [6] "ab    ".toList = ["ab"] ∧
    ("ab" : String) ≠ "ab    " ∧
    convertFile [⟨"col1", 6, "string", none⟩] 10000 true ["ab    "]
      = Outcome.done (some ⟨["col1"], [[PyValue.str "ab"]]⟩) := by
  refine ⟨rfl, rfl, by decide, rfl⟩

/-- Claim C9 as amended: a field whose type tag has no registered transform
(`string` or any unknown tag) passes through the coercion stage unchanged, but
the value it receives is the fixed-width slice with pandas' filler characters
(whitespace) already stripped from both ends by the reader. -/
theorem c9_passthrough_stripped :
    (∀ (f : FieldDef) (s : String), f.type ≠ "int" → f.type ≠ "float" →
      f.type ≠ "bool" → f.type ≠ "date" → f.type ≠ "fixed_monetary" →
      coerceField f s = .ok (.str s)) ∧
    (∀ (widths : List Nat) (cs : List Char),
      sliceRow widths cs
        = (rawSliceRow widths cs).map (fun t => String.mk (pdFieldStrip t.toList))) := by
  constructor
  · intro f s h1 h2 h3 h4 h5
    unfold coerceField
    rw [if_neg h1, if_neg h2, if_neg h3, if_neg h4, if_neg h5]
  · intro widths
    induction widths with
    | nil => intro cs; rfl
    | cons w ws ih =>
      intro cs
      simp only [sliceRow, rawSliceRow, List.map_cons, List.cons.injEq]
      exact ⟨rfl, ih (cs.drop w)⟩

/-- Witness for C9 (amended): a `string` field passes its (already stripped)
value through, and slicing `"ab    "` strips the padding. -/
theorem c9_passthrough_stripped_witness :
    coerceField ⟨"col1", 6, "string", none⟩ "ab" = .ok (.str "ab") ∧
    sliceRow [6] "ab    ".toList
      = (rawSliceRow [6] "ab    ".toList).map (fun t => String.mk (pdFieldStrip t.toList)) :=
  ⟨c9_passthrough_stripped.1 _ _ (by decide) (by decide) (by decide) (by decide) (by decide),
   c9_passthrough_stripped.2 [6] _⟩

/-! ## Claim C10: constructor defaults -/

/-- Claim C10: a converter constructed without explicit `chunk_size` /
`fault_tolerant` arguments gets `fault_tolerant = True` (and
`chunk_size = 10000`), so a structured parse error (`ParserError`) is
tolerated — the run finalizes as a success — whereas opting out re-raises it. -/
theorem c10_default_fault_tolerant (i o : String) (fs : List FieldDef) :
    (mkConverter i o fs).fault_tolerant = true ∧
    (mkConverter i o fs).chunk_size = 10000 ∧
    convertRun fs (mkConverter i o fs).fault_tolerant [ChunkEvent.parserErr]
      = Outcome.done none ∧
    convertRun fs false [ChunkEvent.parserErr]
      = Outcome.crashed PyError.parserError none :=
  ⟨rfl, rfl, rfl, rfl⟩

/-! ## Pipeline lemmas -/

theorem convertLoop_ok_cons (fields : List FieldDef) (ft : Bool)
    (rows : List (List String)) (rest : List ChunkEvent) (w : Option OutFile) :
    convertLoop fields ft (ChunkEvent.ok rows :: rest) w
      = if rows.isEmpty || fields.isEmpty then (w, LoopExit.normal)
        else match coerceChunk fields rows with
          | .error _ => (w, LoopExit.inError)
          | .ok typed =>
            match w with
            | none => convertLoop fields ft rest
                (some ⟨fields.map FieldDef.name, typed⟩)
            | some wr => convertLoop fields ft rest
                (some ⟨wr.cols, wr.rows ++ typed⟩) := rfl

theorem isEmpty_false_of_ne_nil {l : List α} (h : l ≠ []) : l.isEmpty = false := by
  cases l with
  | nil => exact absurd rfl h
  | cons x xs => rfl

theorem finalizeRun_normal (w : Option OutFile) :
    finalizeRun (w, LoopExit.normal) = Outcome.done w := by
  cases w <;> rfl

theorem finalizeRun_reraise (w : Option OutFile) :
    finalizeRun (w, LoopExit.reraise) = Outcome.crashed PyError.parserError w := by
  cases w <;> rfl

theorem convertLoop_until_parserEvt (fields : List FieldDef) (ft : Bool) (hf : fields ≠ []) :
    ∀ (pre : List (List (List String))) (rest : List ChunkEvent) (w : Option OutFile),
      (∀ c ∈ pre, c ≠ [] ∧ ∃ t, coerceChunk fields c = .ok t) →
      convertLoop fields ft (pre.map ChunkEvent.ok ++ ChunkEvent.parserErr :: rest) w
        = ((convertLoop fields ft (pre.map ChunkEvent.ok) w).1,
            if ft then LoopExit.normal else LoopExit.reraise)
        ∧ (convertLoop fields ft (pre.map ChunkEvent.ok) w).2 = LoopExit.normal := by
  intro pre
  induction pre with
  | nil =>
    intro rest w _
    exact ⟨rfl, rfl⟩
  | cons c pre' ih =>
    intro rest w hok
    obtain ⟨hcne, t, hct⟩ := hok c (List.mem_cons_self c pre')
    have hce : c.isEmpty = false := isEmpty_false_of_ne_nil hcne
    have hfe : fields.isEmpty = false := isEmpty_false_of_ne_nil hf
    have hok' : ∀ x ∈ pre', x ≠ [] ∧ ∃ t, coerceChunk fields x = .ok t :=
      fun x hx => hok x (List.mem_cons_of_mem _ hx)
    cases w with
    | none =>
      constructor
      · rw [List.map_cons, List.cons_append, convertLoop_ok_cons, hce, hfe]
        simp only [Bool.or_self, Bool.false_eq_true, if_false]
        rw [hct, convertLoop_ok_cons, hce, hfe]
        simp only [Bool.or_self, Bool.false_eq_true, if_false]
        rw [hct]
        exact (ih rest _ hok').1
      · rw [List.map_cons, convertLoop_ok_cons, hce, hfe]
        simp only [Bool.or_self, Bool.false_eq_true, if_false]
        rw [hct]
        exact (ih rest _ hok').2
    | some wr =>
      constructor
      · rw [List.map_cons, List.cons_append, convertLoop_ok_cons, hce, hfe]
        simp only [Bool.or_self, Bool.false_eq_true, if_false]
        rw [hct, convertLoop_ok_cons, hce, hfe]
        simp only [Bool.or_self, Bool.false_eq_true, if_false]
        rw [hct]
        exact (ih rest _ hok').1
      · rw [List.map_cons, convertLoop_ok_cons, hce, hfe]
        simp only [Bool.or_self, Bool.false_eq_true, if_false]
        rw [hct]
        exact (ih rest _ hok').2

/-! ## Claim C3: empty input -/

/-- Claim C3: a zero-row input yields no chunks, so the writer is never
created, no output file exists, and the run finalizes as a success
(confirmation message, exit status 0) — not as an error. -/
theorem c3_empty_input_success (fields : List FieldDef) (cs : Nat) (ft : Bool) :
    convertFile fields cs ft [] = Outcome.done none := rfl

/-! ## Claim C1: generic-error abort -/

/-- Claim C1 at the spec's own abort scenario: with input `"abcxyz"` and one
`int` width-6 column the coercion raises a generic (non-parse) `ValueError`
before any chunk is written, so `os.remove` runs against a path where no file
was ever created and itself raises an uncaught `FileNotFoundError` — the
user-facing abort message and `sys.exit(1)` on lines 94–95 are never reached,
for either fault-tolerant setting.  When the writer *was* already opened, the
claimed behavior does hold: the file is deleted, the message printed, and the
process exits 1 (`Outcome.aborted`). -/
theorem c1_generic_error_crash :
    convertFile [⟨"col1", 6, "int", none⟩] 10000 true ["abcxyz"]
      = Outcome.crashed PyError.fileNotFound none ∧
    convertFile [⟨"col1", 6, "int", none⟩] 10000 false ["abcxyz"]
      = Outcome.crashed PyError.fileNotFound none ∧
    convertRun [⟨"col1", 6, "int", none⟩] true
      [ChunkEvent.ok [["123456"]], ChunkEvent.genErr] = Outcome.aborted ∧
    convertRun [⟨"col1", 6, "int", none⟩] false
      [ChunkEvent.ok [["123456"]], ChunkEvent.genErr] = Outcome.aborted :=
  ⟨rfl, rfl, rfl, rfl⟩

/-! ## Claim C2: structured parse errors and fault tolerance -/

/-- Counterexample for C2 as stated: per the spec's own definition, a
"structured parse error" includes a row-level coercion failure of a hard-fail
type (`int`).  With fault-tolerant mode enabled, such a failure does *not*
stop gracefully with the output finalized: the `ValueError` is caught by the
generic handler, sets the abort flag, and the run ends in the abort path
(here crashing in `os.remove`), not in success. -/
theorem c2_hard_parse_failure_aborts :
    coerceChunk [⟨"col1", 6, "int", none⟩] [["abcxyz"]]
      = Except.error PyError.valueError ∧
    convertFile [⟨"col1", 6, "int", none⟩] 10000 true ["abcxyz"]
      = Outcome.crashed PyError.fileNotFound none :=
  ⟨rfl, rfl⟩

/-- Claim C2 as amended: a structured parse error means a
`pandas.errors.ParserError` raised by the chunk reader (row-level coercion
failures always take the generic abort path instead).  For such an error,
after any number of successfully coerced and written chunks: with
fault-tolerant mode on, the error is reported, no further chunks are
processed, and the run finalizes normally as a success with exactly the
already-written chunks flushed; with fault-tolerant mode off, the error
re-raises immediately and the run aborts with the exception escaping
`convert`. -/
theorem c2_parser_error_policy (fields : List FieldDef)
    (pre : List (List (List String))) (rest : List ChunkEvent)
    (hf : fields ≠ [])
    (hok : ∀ c ∈ pre, c ≠ [] ∧ ∃ t, coerceChunk fields c = .ok t) :
    convertRun fields true (pre.map ChunkEvent.ok ++ ChunkEvent.parserErr :: rest)
      = Outcome.done (convertLoop fields true (pre.map ChunkEvent.ok) none).1 ∧
    convertRun fields false (pre.map ChunkEvent.ok ++ ChunkEvent.parserErr :: rest)
      = Outcome.crashed PyError.parserError
          (convertLoop fields false (pre.map ChunkEvent.ok) none).1 := by
  constructor
  · have h := convertLoop_until_parserEvt fields true hf pre rest none hok
    unfold convertRun
    rw [h.1, if_pos rfl]
    exact finalizeRun_normal _
  · have h := convertLoop_until_parserEvt fields false hf pre rest none hok
    unfold convertRun
    rw [h.1, if_neg (by decide)]
    exact finalizeRun_reraise _

/-- Witness for C2 (amended): one good chunk, then a `ParserError`.  With the
fault-tolerant default the run succeeds with the written chunk preserved;
without it the `ParserError` escapes. -/
theorem c2_parser_error_policy_witness :
    convertRun [⟨"col1", 6, "int", none⟩] true
        [ChunkEvent.ok [["123456"]], ChunkEvent.parserErr]
      = Outcome.done (some ⟨["col1"], [[PyValue.int 123456]]⟩) ∧
    convertRun [⟨"col1", 6, "int", none⟩] false
        [ChunkEvent.ok [["123456"]], ChunkEvent.parserErr]
      = Outcome.crashed PyError.parserError (some ⟨["col1"], [[PyValue.int 123456]]⟩) := by
  have hok : ∀ c ∈ [[["123456"]]], c ≠ [] ∧
      ∃ t, coerceChunk [(⟨"col1", 6, "int", none⟩ : FieldDef)] c = .ok t := by
    intro c hc
    rcases List.mem_singleton.mp hc with rfl
    exact ⟨by decide, [[PyValue.int 123456]], by decide⟩
  have h := c2_parser_error_policy [⟨"col1", 6, "int", none⟩] [[["123456"]]] []
    (by decide) hok
  exact ⟨h.1.trans (by decide), h.2.trans (by decide)⟩

/-! ## Claim C4: successful runs preserve the row count -/

